import Mathlib

/-!
Verification development for the course-enrollment log ETL.

The definitions below are a shallow embedding of the Log Normalizer
(src/etl/log_transformer.py).  Strings are modelled as lists of
characters (ASCII inputs); CPython library behaviour that the script
relies on (str.strip, str.split, int(), dict construction,
datetime.strptime, datetime/date str() rendering, csv value rendering)
is embedded faithfully, as documented at each definition.
-/

set_option maxHeartbeats 1000000

namespace ETL

/-- Strings of the source program, modelled as lists of characters. -/
abbrev Str := List Char

/-- ASCII whitespace stripped by Python str.strip with no argument
(space, tab, newline, carriage return, vertical tab, form feed;
the model covers the ASCII range of the inputs). -/
def isPySpace (c : Char) : Bool :=
  c = ' ' || c = '\t' || c = '\n' || c = '\r' || c = '\x0b' || c = '\x0c'

/-- Python str.strip(): remove leading and trailing whitespace. -/
def pyStrip (cs : Str) : Str :=
  ((cs.dropWhile isPySpace).reverse.dropWhile isPySpace).reverse

/-- Python str.split with the three-character separator of the source,
line.split with separator space-bar-space: scan left to right, cutting at
each non-overlapping occurrence of the separator, keeping empty pieces. -/
def splitPipe : Str → List Str
  | ' ' :: '|' :: ' ' :: cs => [] :: splitPipe cs
  | c :: cs =>
    match splitPipe cs with
    | [] => [[c]]
    | h :: t => (c :: h) :: t
  | [] => [[]]

/-- Python str.split with a one-character separator (used for the
semicolon and equals-sign splits of the key=value blocks). -/
def splitOnChar (sep : Char) : Str → List Str
  | [] => [[]]
  | c :: cs =>
    if c = sep then [] :: splitOnChar sep cs
    else
      match splitOnChar sep cs with
      | [] => [[c]]
      | h :: t => (c :: h) :: t

/-- ASCII decimal digit test. -/
def isDig (c : Char) : Bool := 48 ≤ c.toNat && c.toNat ≤ 57

/-- Numeric value of a digit character. -/
def dval (c : Char) : Nat := c.toNat - 48

/-- Digit sequence of a Python int literal after the optional sign:
a digit, then digits with single underscores allowed between digits
(CPython grammar for int() on a decimal string).  The accumulator holds
the value of the digits already consumed. -/
def pyDigitsAux : Nat → Str → Option Nat
  | acc, [] => some acc
  | acc, c :: cs =>
    if isDig c then pyDigitsAux (10 * acc + dval c) cs
    else if c = '_' then
      match cs with
      | c2 :: cs2 => if isDig c2 then pyDigitsAux (10 * acc + dval c2) cs2 else none
      | [] => none
    else none

/-- Python int(string): strip whitespace, optional sign, then a decimal
digit sequence (underscore separators allowed between digits). -/
def pyInt (cs : Str) : Option Int :=
  let body := fun (ds : Str) =>
    match ds with
    | c :: rest => if isDig c then pyDigitsAux (dval c) rest else none
    | [] => none
  match pyStrip cs with
  | '+' :: rest => (body rest).map (fun n => (n : Int))
  | '-' :: rest => (body rest).map (fun n => -(n : Int))
  | rest => (body rest).map (fun n => (n : Int))

/-! ### Python dict semantics (insertion order, last value wins) -/

/-- The key-to-string-value mapping built from one key=value block. -/
abbrev PyDict := List (Str × Str)

/-- One insertion into a Python dict: if the key is present, its value
is replaced in place (position kept); otherwise the pair is appended. -/
def dictInsert (d : PyDict) (p : Str × Str) : PyDict :=
  match d with
  | [] => [p]
  | (k, v) :: rest => if p.1 = k then (k, p.2) :: rest else (k, v) :: dictInsert rest p

/-- Python dict lookup (first matching key; keys are unique). -/
def dictLookup (d : PyDict) (k : Str) : Option Str :=
  match d with
  | [] => none
  | (k0, v) :: rest => if k = k0 then some v else dictLookup rest k

/-! ### Timestamps -/

/-- The naive datetime produced by datetime.strptime: calendar fields at
second precision. -/
structure DateTime where
  year : Nat
  month : Nat
  day : Nat
  hour : Nat
  minute : Nat
  second : Nat
deriving DecidableEq

/-- Gregorian leap-year rule used by the datetime module. -/
def isLeap (y : Nat) : Bool := (y % 4 = 0 && y % 100 ≠ 0) || y % 400 = 0

/-- Days in a month, as validated by the datetime constructor. -/
def daysInMonth (y m : Nat) : Nat :=
  if m = 2 then (if isLeap y then 29 else 28)
  else if m = 4 || m = 6 || m = 9 || m = 11 then 30 else 31

/-- Maximal leading digit run of a string, with the remainder. -/
def takeDigs (cs : Str) : Str × Str := (cs.takeWhile isDig, cs.dropWhile isDig)

/-- Value of a digit string (most significant first). -/
def digsVal (ds : Str) : Nat := ds.foldl (fun a c => 10 * a + dval c) 0

/-- Read the four-digit year field of the strptime pattern for the
percent-Y directive: exactly four digits. -/
def read4 (cs : Str) : Option (Nat × Str) :=
  match takeDigs cs with
  | (ds, rest) => if ds.length = 4 then some (digsVal ds, rest) else none

/-- Read a one- or two-digit numeric field.  CPython strptime matches
the month, day, hour, minute and second directives with alternations
that accept one or two digits; because every field here is followed by
a non-digit literal, a longer digit run can never match. -/
def read12 (cs : Str) : Option (Nat × Str) :=
  match takeDigs cs with
  | (ds, rest) =>
    if ds.length = 1 || ds.length = 2 then some (digsVal ds, rest) else none

/-- Expect one literal character, case-insensitively (CPython strptime
compiles its pattern with IGNORECASE, so T and Z also match t and z). -/
def expectCI (a b : Char) (cs : Str) : Option Str :=
  match cs with
  | c :: rest => if c = a || c = b then some rest else none
  | [] => none

/-- datetime.strptime(s, the source format string year-month-dayTtime Z):
the regex produced by CPython for that format, followed by the range
validation done by the datetime constructor.  The per-field range
conditions are exactly those enforced by the combination of regex
alternations and constructor checks: year of four digits and at least 1,
month 1..12, day 1..days-in-month (single-digit day may not be 0),
hour 0..23, minute 0..59, second 0..59 (the regex also admits 60 and 61,
which the constructor then rejects). -/
def strptimeZ (cs : Str) : Option DateTime := do
  let (y, r1) ← read4 cs
  let r2 ← expectCI '-' '-' r1
  let (m, r3) ← read12 r2
  let r4 ← expectCI '-' '-' r3
  let (d, r5) ← read12 r4
  let r6 ← expectCI 'T' 't' r5
  let (h, r7) ← read12 r6
  let r8 ← expectCI ':' ':' r7
  let (mi, r9) ← read12 r8
  let r10 ← expectCI ':' ':' r9
  let (s, r11) ← read12 r10
  let r12 ← expectCI 'Z' 'z' r11
  if r12 = [] ∧ 1 ≤ y ∧ 1 ≤ m ∧ m ≤ 12 ∧ 1 ≤ d ∧ d ≤ daysInMonth y m ∧
      h ≤ 23 ∧ mi ≤ 59 ∧ s ≤ 59 then
    some ⟨y, m, d, h, mi, s⟩
  else none

/-- Digit character for a value (taken mod 10). -/
def dChar (d : Nat) : Char := Char.ofNat (48 + d % 10)

/-- Two-digit zero-padded rendering. -/
def pad2 (n : Nat) : Str := [dChar (n / 10 % 10), dChar (n % 10)]

/-- Four-digit zero-padded rendering. -/
def pad4 (n : Nat) : Str :=
  [dChar (n / 1000 % 10), dChar (n / 100 % 10), dChar (n / 10 % 10), dChar (n % 10)]

/-- datetime.isoformat with a chosen separator, at second precision
(the parsed datetimes have microsecond zero, so CPython renders
year-month-day, the separator, then hour:minute:second, zero-padded). -/
def isoSep (sep : Char) (t : DateTime) : Str :=
  pad4 t.year ++ '-' :: pad2 t.month ++ '-' :: pad2 t.day ++
    sep :: pad2 t.hour ++ ':' :: pad2 t.minute ++ ':' :: pad2 t.second

/-- datetime.isoformat() with the default T separator (the dictionary
key of the time dimension). -/
def isoT (t : DateTime) : Str := isoSep 'T' t

/-- datetime.isoformat(sep=" "), also the value of str(datetime)
(datetime.__str__ is isoformat with a space separator). -/
def isoSpace (t : DateTime) : Str := isoSep ' ' t

/-- date.__str__: year-month-day, zero-padded. -/
def dateStr (p : Nat × Nat × Nat) : Str :=
  pad4 p.1 ++ '-' :: pad2 p.2.1 ++ '-' :: pad2 p.2.2

/-! ### The star-schema records -/

/-- One entry of the dim_users dictionary. -/
structure UserRec where
  user_id : Int
  user_name : Str
  user_city : Str
deriving DecidableEq

/-- One entry of the dim_courses dictionary. -/
structure CourseRec where
  course_id : Str
  course_name : Str
  category : Str
deriving DecidableEq

/-- One entry of the dim_times dictionary (the script stores the
datetime object, its date, and the numeric year, month, day, hour). -/
structure TimeRec where
  time_id : DateTime
  date : Nat × Nat × Nat
  year : Nat
  month : Nat
  day : Nat
  hour : Nat
deriving DecidableEq

/-- One appended fact row (time_id is already rendered as a string by
isoformat with a space separator at append time). -/
structure FactRec where
  time_id : Str
  user_id : Int
  course_id : Str
  price : Int
  promo_code : Option Str
  final_price : Option Int
deriving DecidableEq

/-- The four accumulating collections of the script. -/
structure ETLState where
  dim_users : List (Int × UserRec)
  dim_courses : List (Str × CourseRec)
  dim_times : List (Str × TimeRec)
  facts : List FactRec
deriving DecidableEq

/-- The empty initial state (the module-level empty dicts and list). -/
def initState : ETLState := ⟨[], [], [], []⟩

/-- The exceptions that abort the transform run, named as in the spec
(the script raises the corresponding builtin exceptions: ValueError from
tuple unpacking, strptime, dict() and int(), and KeyError from the
required-key subscripts). -/
inductive Err where
  | malformedLine
  | invalidTimestamp
  | malformedKV
  | invalidId
  | missingField
deriving DecidableEq

/-- Association-list lookup for the dimension dictionaries. -/
def alistLookup {κ ρ : Type} [DecidableEq κ] (dims : List (κ × ρ)) (k : κ) : Option ρ :=
  match dims with
  | [] => none
  | (k0, v) :: rest => if k = k0 then some v else alistLookup rest k

/-- Insert-if-absent into an ordered dimension dictionary; when the key
is new, the record builder must succeed (a missing required key raises
only on this first occurrence, exactly as in the script where the
attribute subscripts sit inside the presence check). -/
def dimInsert {κ ρ : Type} [DecidableEq κ] (dims : List (κ × ρ)) (k : κ)
    (mk : Option ρ) : Except Err (List (κ × ρ)) :=
  if (alistLookup dims k).isSome then .ok dims
  else
    match mk with
    | some r => .ok (dims ++ [(k, r)])
    | none => .error .missingField

/-- Build the pair list of a key=value block: each semicolon-separated
sub-field must split on the equals sign into exactly two parts, as
required by the dict() constructor of the script. -/
def pairsExc : List Str → Except Err (List (Str × Str))
  | [] => .ok []
  | f :: fs =>
    match splitOnChar '=' f with
    | [k, v] =>
      match pairsExc fs with
      | .ok ps => .ok ((k, v) :: ps)
      | .error e => .error e
    | _ => .error .malformedKV

/-- dict(field.split on equals for field in block.split on semicolon). -/
def parseBlock (s : Str) : Except Err PyDict :=
  match pairsExc (splitOnChar ';' s) with
  | .ok ps => .ok (ps.foldl dictInsert [])
  | .error e => .error e

/-- Required-key subscript on a block dict (KeyError when absent). -/
def getKey (d : PyDict) (k : Str) : Except Err Str :=
  match dictLookup d k with
  | some v => .ok v
  | none => .error .missingField

/-- strptime call of the script (ValueError on mismatch). -/
def getTs (s : Str) : Except Err DateTime :=
  match strptimeZ s with
  | some dt => .ok dt
  | none => .error .invalidTimestamp

/-- int() call of the script (ValueError when not numeric). -/
def toInt (s : Str) : Except Err Int :=
  match pyInt s with
  | some n => .ok n
  | none => .error .invalidId

/-- The five-way unpacking of line.split on the pipe delimiter with each
field stripped; ValueError when the split does not yield five fields. -/
def split5 (line : Str) : Except Err (Str × Str × Str × Str × Str) :=
  match splitPipe line with
  | [a, b, c, d, e] => .ok (pyStrip a, pyStrip b, pyStrip c, pyStrip d, pyStrip e)
  | _ => .error .malformedLine

/-- User record built from the user block dict at first occurrence of a
user id (subscripts user_name then user_city). -/
def mkUserRec (uid : Int) (d : PyDict) : Option UserRec :=
  (dictLookup d ("user_name".data)).bind fun name =>
    (dictLookup d ("user_city".data)).map fun city => ⟨uid, name, city⟩

/-- Course record built from the course block dict at first occurrence
of a course id (subscripts course_name then category). -/
def mkCourseRec (cid : Str) (d : PyDict) : Option CourseRec :=
  (dictLookup d ("course_name".data)).bind fun name =>
    (dictLookup d ("category".data)).map fun cat => ⟨cid, name, cat⟩

/-- Time record stored at first occurrence of a timestamp. -/
def mkTimeRec (dt : DateTime) : TimeRec :=
  ⟨dt, (dt.year, dt.month, dt.day), dt.year, dt.month, dt.day, dt.hour⟩

/-- Processing of one raw input line against the accumulated state,
following the script top to bottom: strip, skip when blank, split into
five stripped fields, parse the timestamp and insert the time dimension
entry, build the user dict and insert the user dimension entry, likewise
for the course, build the price dict, normalize the promo sentinel,
derive the final price, and append the fact row. -/
def processLine (st : ETLState) (raw : String) : Except Err ETLState :=
  let line := pyStrip raw.data
  if line = [] then .ok st
  else
    match split5 line with
    | .error e => .error e
    | .ok (tsS, _f2, userS, courseS, priceS) =>
      match getTs tsS with
      | .error e => .error e
      | .ok dt =>
        match dimInsert st.dim_times (isoT dt) (some (mkTimeRec dt)) with
        | .error e => .error e
        | .ok dimTimes =>
          match parseBlock userS with
          | .error e => .error e
          | .ok userD =>
            match getKey userD ("user_id".data) with
            | .error e => .error e
            | .ok uidS =>
              match toInt uidS with
              | .error e => .error e
              | .ok uid =>
                match dimInsert st.dim_users uid (mkUserRec uid userD) with
                | .error e => .error e
                | .ok dimUsers =>
                  match parseBlock courseS with
                  | .error e => .error e
                  | .ok courseD =>
                    match getKey courseD ("course_id".data) with
                    | .error e => .error e
                    | .ok cid =>
                      match dimInsert st.dim_courses cid (mkCourseRec cid courseD) with
                      | .error e => .error e
                      | .ok dimCourses =>
                        match parseBlock priceS with
                        | .error e => .error e
                        | .ok priceD =>
                          match getKey priceD ("price".data) with
                          | .error e => .error e
                          | .ok priceS2 =>
                            match toInt priceS2 with
                            | .error e => .error e
                            | .ok price =>
                              match getKey priceD ("promo_code".data) with
                              | .error e => .error e
                              | .ok promoRaw =>
                                let promo : Option Str :=
                                  if promoRaw = "NULL".data then none else some promoRaw
                                let finalPrice : Option Int :=
                                  if promo.isNone then some price else none
                                .ok { dim_users := dimUsers,
                                      dim_courses := dimCourses,
                                      dim_times := dimTimes,
                                      facts := st.facts ++
                                        [⟨isoSpace dt, uid, cid, price, promo, finalPrice⟩] }

/-- The whole parse loop from a given state. -/
def runFrom (st : ETLState) : List String → Except Err ETLState
  | [] => .ok st
  | l :: ls =>
    match processLine st l with
    | .ok st2 => runFrom st2 ls
    | .error e => .error e

/-- The transform run on the list of raw input lines; the four output
files are written only when this returns a final state (the script
writes after the loop, and any exception kills the process first). -/
def runTransform (lines : List String) : Except Err ETLState :=
  runFrom initState lines

/-! ### CSV rendering

The script writes each table with csv.DictWriter, which renders every
non-string cell with str() and an absent value (None) as the empty
field.  str() of the stored values: int in decimal, datetime via
isoformat with a space separator, date as year-month-day. -/

/-- str() of a nonnegative integer. -/
def natStr (n : Nat) : Str := (Nat.repr n).data

/-- str() of a Python int. -/
def intStr (i : Int) : Str := if i < 0 then '-' :: natStr i.natAbs else natStr i.natAbs

/-- csv cell of a nullable string (None becomes the empty field). -/
def optStr (o : Option Str) : Str :=
  match o with
  | none => []
  | some s => s

/-- csv cell of a nullable int. -/
def optIntStr (o : Option Int) : Str :=
  match o with
  | none => []
  | some i => intStr i

/-- The written dim_time row: time_id, date, year, month, day, hour.
The stored time_id is a datetime object, so csv renders str(datetime),
which is isoformat with a space separator. -/
def renderTimeRow (t : TimeRec) : List Str :=
  [isoSpace t.time_id, dateStr t.date, natStr t.year, natStr t.month,
   natStr t.day, natStr t.hour]

/-- The written dim_user row. -/
def renderUserRow (u : UserRec) : List Str := [intStr u.user_id, u.user_name, u.user_city]

/-- The written dim_course row. -/
def renderCourseRow (c : CourseRec) : List Str := [c.course_id, c.course_name, c.category]

/-- The written fact_enrollment row (time_id is already a string). -/
def renderFactRow (f : FactRec) : List Str :=
  [f.time_id, intStr f.user_id, f.course_id, intStr f.price,
   optStr f.promo_code, optIntStr f.final_price]

/-- The dim_time csv body, one row per dictionary value in insertion
order (write_csv over dict .values()). -/
def outputTimeRows (st : ETLState) : List (List Str) :=
  st.dim_times.map (fun p => renderTimeRow p.2)

/-! ### Derived per-line views used to state the claims -/

/-- The state-independent data extracted from one line: everything the
loop computes unconditionally (the conditional attribute subscripts of
the dimension inserts are not part of this view). -/
structure LineParts where
  dt : DateTime
  userD : PyDict
  uid : Int
  courseD : PyDict
  cid : Str
  priceD : PyDict
  price : Int
  promoRaw : Str
deriving DecidableEq

/-- The per-line view, built from the same stage functions the loop
uses, in the same order, dropping only the state-dependent inserts. -/
def lineView (raw : String) : Option LineParts :=
  match split5 (pyStrip raw.data) with
  | .error _ => none
  | .ok (tsS, _f2, userS, courseS, priceS) =>
    match getTs tsS with
    | .error _ => none
    | .ok dt =>
      match parseBlock userS with
      | .error _ => none
      | .ok userD =>
        match getKey userD ("user_id".data) with
        | .error _ => none
        | .ok uidS =>
          match toInt uidS with
          | .error _ => none
          | .ok uid =>
            match parseBlock courseS with
            | .error _ => none
            | .ok courseD =>
              match getKey courseD ("course_id".data) with
              | .error _ => none
              | .ok cid =>
                match parseBlock priceS with
                | .error _ => none
                | .ok priceD =>
                  match getKey priceD ("price".data) with
                  | .error _ => none
                  | .ok priceS2 =>
                    match toInt priceS2 with
                    | .error _ => none
                    | .ok price =>
                      match getKey priceD ("promo_code".data) with
                      | .error _ => none
                      | .ok promoRaw =>
                        some ⟨dt, userD, uid, courseD, cid, priceD, price, promoRaw⟩

/-- The normalized promo code of a line (NULL sentinel becomes none). -/
def mkPromo (p : LineParts) : Option Str :=
  if p.promoRaw = "NULL".data then none else some p.promoRaw

/-- The fact row a line appends. -/
def mkFact (p : LineParts) : FactRec :=
  ⟨isoSpace p.dt, p.uid, p.cid, p.price, mkPromo p,
   if (mkPromo p).isNone then some p.price else none⟩

/-- Test for a skipped blank line. -/
def isBlank (raw : String) : Bool := pyStrip raw.data = []

/-- The fact rows contributed by a list of lines, one per non-blank
line, in order. -/
def factsOf (ls : List String) : List FactRec :=
  ls.filterMap (fun l => if isBlank l then none else (lineView l).map mkFact)

/-- The user ids of the non-blank lines, in order. -/
def idsU (ls : List String) : List Int :=
  ls.filterMap (fun l => if isBlank l then none else (lineView l).map (fun p => p.uid))

/-- The course ids of the non-blank lines, in order. -/
def idsC (ls : List String) : List Str :=
  ls.filterMap (fun l => if isBlank l then none else (lineView l).map (fun p => p.cid))

/-- The time-dimension keys of the non-blank lines, in order. -/
def idsT (ls : List String) : List Str :=
  ls.filterMap (fun l => if isBlank l then none else (lineView l).map (fun p => isoT p.dt))

/-- The user record carried by the first non-blank line whose user id
is the given one (the first-occurrence-wins value of the spec). -/
def firstUser (uid : Int) : List String → Option UserRec
  | [] => none
  | l :: ls =>
    if isBlank l then firstUser uid ls
    else
      match lineView l with
      | none => firstUser uid ls
      | some p => if p.uid = uid then mkUserRec uid p.userD else firstUser uid ls

/-- The course record carried by the first non-blank line whose course
id is the given one. -/
def firstCourse (cid : Str) : List String → Option CourseRec
  | [] => none
  | l :: ls =>
    if isBlank l then firstCourse cid ls
    else
      match lineView l with
      | none => firstCourse cid ls
      | some p => if p.cid = cid then mkCourseRec cid p.courseD else firstCourse cid ls

/-- First occurrences of a list, in order of first appearance, given
the set of already-seen elements. -/
def firstSeenAux {α : Type} [DecidableEq α] (seen : List α) : List α → List α
  | [] => []
  | a :: l => if a ∈ seen then firstSeenAux seen l else a :: firstSeenAux (a :: seen) l

/-- First occurrences of a list, in order of first appearance. -/
def firstSeen {α : Type} [DecidableEq α] (l : List α) : List α := firstSeenAux [] l

/-- The strict zero-padded timestamp pattern of the spec: four digits,
dash, two digits, dash, two digits, capital T, two digits, colon, two
digits, colon, two digits, capital Z. -/
def strictFormatZ : Str → Bool
  | [y1, y2, y3, y4, s1, m1, m2, s2, d1, d2, t, h1, h2, c1, n1, n2, c2, e1, e2, z] =>
    isDig y1 && isDig y2 && isDig y3 && isDig y4 && s1 = '-' && isDig m1 && isDig m2 &&
    s2 = '-' && isDig d1 && isDig d2 && t = 'T' && isDig h1 && isDig h2 && c1 = ':' &&
    isDig n1 && isDig n2 && c2 = ':' && isDig e1 && isDig e2 && z = 'Z'
  | _ => false

/-- The strict zero-padded rendering of a timestamp with a trailing Z. -/
def renderStrictZ (y m d h mi s : Nat) : Str := isoT ⟨y, m, d, h, mi, s⟩ ++ ['Z']

/-- Space-separated second-precision timestamp pattern: four digits,
dash, two digits, dash, two digits, space, two digits, colon, two
digits, colon, two digits. -/
def isSpaceFmt : Str → Bool
  | [y1, y2, y3, y4, s1, m1, m2, s2, d1, d2, sp, h1, h2, c1, n1, n2, c2, e1, e2] =>
    isDig y1 && isDig y2 && isDig y3 && isDig y4 && s1 = '-' && isDig m1 && isDig m2 &&
    s2 = '-' && isDig d1 && isDig d2 && sp = ' ' && isDig h1 && isDig h2 && c1 = ':' &&
    isDig n1 && isDig n2 && c2 = ':' && isDig e1 && isDig e2
  | _ => false

/-- Calendar-date-only pattern: four digits, dash, two digits, dash,
two digits. -/
def isDateFmt : Str → Bool
  | [y1, y2, y3, y4, s1, m1, m2, s2, d1, d2] =>
    isDig y1 && isDig y2 && isDig y3 && isDig y4 && s1 = '-' && isDig m1 && isDig m2 &&
    s2 = '-' && isDig d1 && isDig d2
  | _ => false

/-- The key=value pairs of a block whose sub-fields all have exactly
one equals sign, in textual order. -/
def pairsOf (s : Str) : List (Str × Str) :=
  (splitOnChar ';' s).filterMap (fun f =>
    match splitOnChar '=' f with
    | [k, v] => some (k, v)
    | _ => none)

/-- The value of the last pair carrying a given key (pairs later in
the list take precedence). -/
def lookupLast : List (Str × Str) → Str → Option Str
  | [], _ => none
  | p :: ps, k =>
    match lookupLast ps k with
    | some v => some v
    | none => if p.1 = k then some p.2 else none

/-- The final state of a successful run (initial state otherwise);
used to instantiate theorems at concrete inputs. -/
def getOk (r : Except Err ETLState) : ETLState :=
  match r with
  | .ok st => st
  | .error _ => initState

/-! ### Digit and timestamp-format lemmas -/

theorem mod10_cases (d : Nat) : d % 10 = 0 ∨ d % 10 = 1 ∨ d % 10 = 2 ∨ d % 10 = 3 ∨
    d % 10 = 4 ∨ d % 10 = 5 ∨ d % 10 = 6 ∨ d % 10 = 7 ∨ d % 10 = 8 ∨ d % 10 = 9 := by
  omega

theorem dChar_isDig (d : Nat) : isDig (dChar d) = true := by
  rcases mod10_cases d with e|e|e|e|e|e|e|e|e|e <;> simp only [dChar, e] <;> decide

theorem dval_dChar (d : Nat) : dval (dChar d) = d % 10 := by
  rcases mod10_cases d with e|e|e|e|e|e|e|e|e|e <;> simp only [dChar, e] <;> decide

theorem takeDigs_append (ds : Str) (c : Char) (rest : Str)
    (hds : ∀ x ∈ ds, isDig x = true) (hc : isDig c = false) :
    takeDigs (ds ++ c :: rest) = (ds, c :: rest) := by
  induction ds with
  | nil => simp [takeDigs, hc]
  | cons a as ih =>
    have ha : isDig a = true := hds a (by simp)
    have ih2 := ih (fun x hx => hds x (by simp [hx]))
    simp only [takeDigs, List.cons_append, List.takeWhile_cons, List.dropWhile_cons, ha] at *
    simp only [Prod.mk.injEq] at ih2
    simp [ih2.1, ih2.2]

theorem pad2_digs (n : Nat) : ∀ x ∈ pad2 n, isDig x = true := by
  intro x hx
  simp only [pad2, List.mem_cons, List.mem_singleton] at hx
  rcases hx with h | h | h <;> simp_all [dChar_isDig]

theorem pad4_digs (n : Nat) : ∀ x ∈ pad4 n, isDig x = true := by
  intro x hx
  simp only [pad4, List.mem_cons, List.mem_singleton] at hx
  rcases hx with h | h | h | h | h <;> simp_all [dChar_isDig]

theorem pad2_length (n : Nat) : (pad2 n).length = 2 := rfl

theorem pad4_length (n : Nat) : (pad4 n).length = 4 := rfl

theorem read4_pad4 (y : Nat) (c : Char) (rest : Str) (hc : isDig c = false) :
    read4 (pad4 y ++ c :: rest) = some (y % 10000, c :: rest) := by
  have ht := takeDigs_append (pad4 y) c rest (pad4_digs y) hc
  have hv : digsVal (pad4 y) = y % 10000 := by
    simp only [digsVal, pad4, List.foldl_cons, List.foldl_nil, dval_dChar]
    omega
  simp [read4, ht, hv, pad4_length]

theorem read12_pad2 (n : Nat) (c : Char) (rest : Str) (hc : isDig c = false) :
    read12 (pad2 n ++ c :: rest) = some (n % 100, c :: rest) := by
  have ht := takeDigs_append (pad2 n) c rest (pad2_digs n) hc
  have hv : digsVal (pad2 n) = n % 100 := by
    simp only [digsVal, pad2, List.foldl_cons, List.foldl_nil, dval_dChar]
    omega
  simp [read12, ht, hv, pad2_length]

theorem read4_dash (y : Nat) (rest : Str) :
    read4 (pad4 y ++ '-' :: rest) = some (y % 10000, '-' :: rest) :=
  read4_pad4 y '-' rest (by decide)

theorem read12_dash (n : Nat) (rest : Str) :
    read12 (pad2 n ++ '-' :: rest) = some (n % 100, '-' :: rest) :=
  read12_pad2 n '-' rest (by decide)

theorem read12_tsep (n : Nat) (rest : Str) :
    read12 (pad2 n ++ 'T' :: rest) = some (n % 100, 'T' :: rest) :=
  read12_pad2 n 'T' rest (by decide)

theorem read12_colon (n : Nat) (rest : Str) :
    read12 (pad2 n ++ ':' :: rest) = some (n % 100, ':' :: rest) :=
  read12_pad2 n ':' rest (by decide)

theorem read12_zsep (n : Nat) (rest : Str) :
    read12 (pad2 n ++ 'Z' :: rest) = some (n % 100, 'Z' :: rest) :=
  read12_pad2 n 'Z' rest (by decide)

theorem expectCI_hit (a b : Char) (rest : Str) : expectCI a b (a :: rest) = some rest := by
  simp [expectCI]

theorem daysInMonth_le31 (y m : Nat) : daysInMonth y m ≤ 31 := by
  simp only [daysInMonth]
  split_ifs <;> norm_num

/-- Every strictly formatted in-range timestamp string is accepted by
the strptime embedding, with its components recovered. -/
theorem strict_parses (y m d h mi s : Nat) (hy1 : 1 ≤ y) (hy2 : y ≤ 9999)
    (hm1 : 1 ≤ m) (hm2 : m ≤ 12) (hd1 : 1 ≤ d) (hd2 : d ≤ daysInMonth y m)
    (hh : h ≤ 23) (hmi : mi ≤ 59) (hs : s ≤ 59) :
    strptimeZ (renderStrictZ y m d h mi s) = some ⟨y, m, d, h, mi, s⟩ := by
  have hd31 := daysInMonth_le31 y m
  have ey : y % 10000 = y := Nat.mod_eq_of_lt (by omega)
  have em : m % 100 = m := Nat.mod_eq_of_lt (by omega)
  have ed : d % 100 = d := Nat.mod_eq_of_lt (by omega)
  have eh : h % 100 = h := Nat.mod_eq_of_lt (by omega)
  have emi : mi % 100 = mi := Nat.mod_eq_of_lt (by omega)
  have es : s % 100 = s := Nat.mod_eq_of_lt (by omega)
  simp only [renderStrictZ, isoT, isoSep, List.append_assoc, List.cons_append]
  simp only [strptimeZ, read4_dash, read12_dash, read12_tsep, read12_colon, read12_zsep,
    expectCI_hit, Option.bind_eq_bind, Option.some_bind, ey, em, ed, eh, emi, es]
  rw [if_pos]
  exact ⟨trivial, hy1, hm1, hm2, hd1, hd2, hh, hmi, hs⟩

/-- The strict rendering matches the strict zero-padded pattern. -/
theorem render_strict_fmt (y m d h mi s : Nat) :
    strictFormatZ (renderStrictZ y m d h mi s) = true := by
  simp only [renderStrictZ, isoT, isoSep, pad4, pad2, List.cons_append, List.nil_append,
    List.append_assoc]
  simp [strictFormatZ, dChar_isDig]

/-- The space-separated rendering of any datetime record matches the
space-separated second-precision pattern. -/
theorem isoSpace_fmt (t : DateTime) : isSpaceFmt (isoSpace t) = true := by
  simp only [isoSpace, isoSep, pad4, pad2, List.cons_append, List.nil_append,
    List.append_assoc]
  simp [isSpaceFmt, dChar_isDig]

/-- The date rendering of any stored date matches the date pattern. -/
theorem dateStr_fmt (p : Nat × Nat × Nat) : isDateFmt (dateStr p) = true := by
  simp only [dateStr, pad4, pad2, List.cons_append, List.nil_append, List.append_assoc]
  simp [isDateFmt, dChar_isDig]

/-! ### Python dict lemmas -/

theorem dictLookup_dictInsert (d : PyDict) (p : Str × Str) (k : Str) :
    dictLookup (dictInsert d p) k = if k = p.1 then some p.2 else dictLookup d k := by
  induction d with
  | nil => simp [dictInsert, dictLookup]
  | cons q rest ih =>
    obtain ⟨k0, v⟩ := q
    by_cases hp : p.1 = k0
    · simp only [dictInsert, if_pos hp, dictLookup]
      by_cases hk : k = k0 <;> simp [hk, hp]
    · simp only [dictInsert, if_neg hp, dictLookup, ih]
      by_cases hk : k = k0 <;> by_cases hk2 : k = p.1 <;> simp_all

/-- Looking up a key in a Python dict built by successive insertions
yields the value of the last inserted pair carrying that key. -/
theorem dictLookup_foldl (ps : List (Str × Str)) (d : PyDict) (k : Str) :
    dictLookup (ps.foldl dictInsert d) k =
      match lookupLast ps k with
      | some v => some v
      | none => dictLookup d k := by
  induction ps generalizing d with
  | nil => simp [lookupLast]
  | cons p ps ih =>
    simp only [List.foldl_cons, ih (dictInsert d p), dictLookup_dictInsert, lookupLast]
    rcases hl : lookupLast ps k with _ | v
    · by_cases hpk : p.1 = k
      · simp [hpk]
      · have hkp : ¬ (k = p.1) := fun e => hpk e.symm
        simp [hpk, hkp]
    · simp

theorem pairsExc_ok (fs : List Str) (h : ∀ f ∈ fs, (splitOnChar '=' f).length = 2) :
    pairsExc fs = .ok (fs.filterMap (fun f =>
      match splitOnChar '=' f with
      | [k, v] => some (k, v)
      | _ => none)) := by
  induction fs with
  | nil => rfl
  | cons f fs ih =>
    have h2 : (splitOnChar '=' f).length = 2 := h f (by simp)
    have ih2 := ih (fun g hg => h g (by simp [hg]))
    rcases e : splitOnChar '=' f with _ | ⟨k, _ | ⟨v, _ | ⟨c, t⟩⟩⟩
    · rw [e] at h2; simp at h2
    · rw [e] at h2; simp at h2
    · simp [pairsExc, e, ih2]
    · rw [e] at h2; simp at h2

theorem parseBlock_ok (s : Str) (h : ∀ f ∈ splitOnChar ';' s, (splitOnChar '=' f).length = 2) :
    parseBlock s = .ok ((pairsOf s).foldl dictInsert []) := by
  simp [parseBlock, pairsExc_ok _ h, pairsOf]

/-! ### Dimension-dictionary and per-line lemmas -/


theorem alistLookup_append {κ ρ : Type} [DecidableEq κ] (xs ys : List (κ × ρ)) (k : κ) :
    alistLookup (xs ++ ys) k =
      match alistLookup xs k with
      | some v => some v
      | none => alistLookup ys k := by
  induction xs with
  | nil => simp [alistLookup]
  | cons q rest ih =>
    obtain ⟨k0, v⟩ := q
    by_cases h : k = k0 <;> simp [alistLookup, h, ih]

theorem alistLookup_isSome_iff {κ ρ : Type} [DecidableEq κ] (xs : List (κ × ρ)) (k : κ) :
    (alistLookup xs k).isSome = true ↔ k ∈ xs.map Prod.fst := by
  induction xs with
  | nil => simp [alistLookup]
  | cons q rest ih =>
    obtain ⟨k0, v⟩ := q
    by_cases h : k = k0 <;> simp [alistLookup, h, ih]

theorem dimInsert_ok_present {κ ρ : Type} [DecidableEq κ] {dims dims2 : List (κ × ρ)}
    {k : κ} {mk : Option ρ} (hp : (alistLookup dims k).isSome = true)
    (h : dimInsert dims k mk = .ok dims2) : dims2 = dims := by
  simp [dimInsert, hp] at h
  exact h.symm

theorem dimInsert_ok_absent {κ ρ : Type} [DecidableEq κ] {dims dims2 : List (κ × ρ)}
    {k : κ} {mk : Option ρ} (hp : alistLookup dims k = none)
    (h : dimInsert dims k mk = .ok dims2) :
    ∃ r, mk = some r ∧ dims2 = dims ++ [(k, r)] := by
  rcases mk with _ | r
  · simp [dimInsert, hp] at h
  · simp [dimInsert, hp] at h
    exact ⟨r, rfl, h.symm⟩

theorem dimInsert_lookup {κ ρ : Type} [DecidableEq κ] {dims dims2 : List (κ × ρ)}
    {k0 : κ} {mk : Option ρ} (h : dimInsert dims k0 mk = .ok dims2) (k : κ) :
    alistLookup dims2 k =
      match alistLookup dims k with
      | some v => some v
      | none => if k = k0 then mk else none := by
  rcases hp : alistLookup dims k0 with _ | r0
  · obtain ⟨r, hmk, hd⟩ := dimInsert_ok_absent hp h
    subst hmk
    rw [hd, alistLookup_append]
    rcases hv : alistLookup dims k with _ | v
    · simp [alistLookup]
    · simp
  · have hd := dimInsert_ok_present (by simp [hp]) h
    rw [hd]
    rcases hv : alistLookup dims k with _ | v
    · by_cases hk : k = k0
      · rw [hk] at hv
        rw [hv] at hp
        cases hp
      · simp [hk]
    · rfl

theorem dimInsert_keys {κ ρ : Type} [DecidableEq κ] {dims dims2 : List (κ × ρ)}
    {k0 : κ} {mk : Option ρ} (h : dimInsert dims k0 mk = .ok dims2) :
    dims2.map Prod.fst =
      if (alistLookup dims k0).isSome then dims.map Prod.fst
      else dims.map Prod.fst ++ [k0] := by
  rcases hp : alistLookup dims k0 with _ | r0
  · obtain ⟨r, hmk, hd⟩ := dimInsert_ok_absent hp h
    rw [hd]
    simp [hp]
  · have hd := dimInsert_ok_present (by simp [hp]) h
    rw [hd]
    simp [hp]

theorem dimInsert_nodup {κ ρ : Type} [DecidableEq κ] {dims dims2 : List (κ × ρ)}
    {k0 : κ} {mk : Option ρ} (h : dimInsert dims k0 mk = .ok dims2)
    (hn : (dims.map Prod.fst).Nodup) : (dims2.map Prod.fst).Nodup := by
  rw [dimInsert_keys h]
  rcases hp : alistLookup dims k0 with _ | r0
  · have hni : k0 ∉ dims.map Prod.fst := by
      rw [← @alistLookup_isSome_iff κ ρ _ dims k0]
      simp [hp]
    simp [List.nodup_append, hn, hni]
  · simp [hp, hn]

theorem processLine_blank (st : ETLState) (raw : String) (h : pyStrip raw.data = []) :
    processLine st raw = .ok st := by
  simp [processLine, h]

theorem processLine_ok {st st2 : ETLState} {raw : String}
    (h : processLine st raw = .ok st2) :
    (pyStrip raw.data = [] ∧ st2 = st) ∨
    (pyStrip raw.data ≠ [] ∧ ∃ p : LineParts,
      lineView raw = some p ∧
      dimInsert st.dim_users p.uid (mkUserRec p.uid p.userD) = .ok st2.dim_users ∧
      dimInsert st.dim_courses p.cid (mkCourseRec p.cid p.courseD) = .ok st2.dim_courses ∧
      dimInsert st.dim_times (isoT p.dt) (some (mkTimeRec p.dt)) = .ok st2.dim_times ∧
      st2.facts = st.facts ++ [mkFact p]) := by
  by_cases hb : pyStrip raw.data = []
  · left
    rw [processLine_blank st raw hb] at h
    simp only [Except.ok.injEq] at h
    exact ⟨hb, h.symm⟩
  · right
    refine ⟨hb, ?_⟩
    simp only [processLine, if_neg hb] at h
    rcases h5 : split5 (pyStrip raw.data) with e | ⟨tsS, f2, userS, courseS, priceS⟩
    · simp only [h5] at h
      exact absurd h (by simp)
    simp only [h5] at h
    rcases h6 : getTs tsS with e | dt
    · simp only [h6] at h
      exact absurd h (by simp)
    simp only [h6] at h
    rcases h7 : dimInsert st.dim_times (isoT dt) (some (mkTimeRec dt)) with e | dimTimes
    · simp only [h7] at h
      exact absurd h (by simp)
    simp only [h7] at h
    rcases h8 : parseBlock userS with e | userD
    · simp only [h8] at h
      exact absurd h (by simp)
    simp only [h8] at h
    rcases h9 : getKey userD ("user_id".data) with e | uidS
    · simp only [h9] at h
      exact absurd h (by simp)
    simp only [h9] at h
    rcases h10 : toInt uidS with e | uid
    · simp only [h10] at h
      exact absurd h (by simp)
    simp only [h10] at h
    rcases h11 : dimInsert st.dim_users uid (mkUserRec uid userD) with e | dimUsers
    · simp only [h11] at h
      exact absurd h (by simp)
    simp only [h11] at h
    rcases h12 : parseBlock courseS with e | courseD
    · simp only [h12] at h
      exact absurd h (by simp)
    simp only [h12] at h
    rcases h13 : getKey courseD ("course_id".data) with e | cid
    · simp only [h13] at h
      exact absurd h (by simp)
    simp only [h13] at h
    rcases h14 : dimInsert st.dim_courses cid (mkCourseRec cid courseD) with e | dimCourses
    · simp only [h14] at h
      exact absurd h (by simp)
    simp only [h14] at h
    rcases h15 : parseBlock priceS with e | priceD
    · simp only [h15] at h
      exact absurd h (by simp)
    simp only [h15] at h
    rcases h16 : getKey priceD ("price".data) with e | priceS2
    · simp only [h16] at h
      exact absurd h (by simp)
    simp only [h16] at h
    rcases h17 : toInt priceS2 with e | price
    · simp only [h17] at h
      exact absurd h (by simp)
    simp only [h17] at h
    rcases h18 : getKey priceD ("promo_code".data) with e | promoRaw
    · simp only [h18] at h
      exact absurd h (by simp)
    simp only [h18] at h
    simp only [Except.ok.injEq] at h
    subst h
    refine ⟨⟨dt, userD, uid, courseD, cid, priceD, price, promoRaw⟩, ?_, ?_, ?_, ?_, ?_⟩
    · simp only [lineView, h5, h6, h8, h9, h10, h12, h13, h15, h16, h17, h18]
    · exact h11
    · exact h14
    · exact h7
    · rfl

/-! ### Run-level lemmas -/


theorem isBlank_iff (raw : String) : isBlank raw = true ↔ pyStrip raw.data = [] := by
  simp [isBlank]

theorem runFrom_append (st : ETLState) (xs ys : List String) :
    runFrom st (xs ++ ys) =
      match runFrom st xs with
      | .ok st2 => runFrom st2 ys
      | .error e => .error e := by
  induction xs generalizing st with
  | nil => simp [runFrom]
  | cons l ls ih =>
    simp only [List.cons_append, runFrom]
    rcases hpl : processLine st l with e | st2 <;> simp [hpl, ih]

theorem runFrom_facts {ls : List String} {st st2 : ETLState}
    (h : runFrom st ls = .ok st2) : st2.facts = st.facts ++ factsOf ls := by
  induction ls generalizing st with
  | nil =>
    simp only [runFrom, Except.ok.injEq] at h
    rw [← h]
    simp [factsOf]
  | cons l ls ih =>
    simp only [runFrom] at h
    rcases hpl : processLine st l with e | st1
    · rw [hpl] at h; cases h
    rw [hpl] at h
    have hf := ih h
    rcases processLine_ok hpl with ⟨hb, rfl⟩ | ⟨hb, p, hv, hu, hc, ht, hfacts⟩
    · rw [hf]
      simp [factsOf, isBlank, hb]
    · rw [hf, hfacts]
      simp [factsOf, List.filterMap_cons, isBlank, hb, hv]

theorem runFrom_factsLen {ls : List String} {st st2 : ETLState}
    (h : runFrom st ls = .ok st2) :
    st2.facts.length = st.facts.length + (ls.filter (fun l => !(isBlank l))).length := by
  induction ls generalizing st with
  | nil =>
    simp only [runFrom, Except.ok.injEq] at h
    rw [← h]
    simp
  | cons l ls ih =>
    simp only [runFrom] at h
    rcases hpl : processLine st l with e | st1
    · rw [hpl] at h; cases h
    rw [hpl] at h
    have hlen := ih h
    rcases processLine_ok hpl with ⟨hb, rfl⟩ | ⟨hb, p, hv, hu, hc, ht, hfacts⟩
    · rw [hlen]
      simp [List.filter_cons, isBlank, hb]
    · rw [hlen, hfacts]
      simp [List.filter_cons, isBlank, hb]
      omega

theorem runFrom_filter_blank (st : ETLState) (ls : List String) :
    runFrom st (ls.filter (fun l => !(isBlank l))) = runFrom st ls := by
  induction ls generalizing st with
  | nil => rfl
  | cons l ls ih =>
    by_cases hb : isBlank l = true
    · have hs : pyStrip l.data = [] := (isBlank_iff l).1 hb
      simp only [List.filter_cons, hb]
      simp only [runFrom, processLine_blank st l hs]
      exact ih st
    · have hbf : isBlank l = false := by simp_all
      simp only [List.filter_cons, hbf]
      simp only [Bool.not_false, if_pos rfl, runFrom]
      rcases hpl : processLine st l with e | st1 <;> simp [hpl, ih]

theorem firstSeenAux_congr {α : Type} [DecidableEq α] (l : List α) :
    ∀ {s1 s2 : List α}, (∀ a, a ∈ s1 ↔ a ∈ s2) →
      firstSeenAux s1 l = firstSeenAux s2 l := by
  induction l with
  | nil => intro s1 s2 hs; rfl
  | cons a l ih =>
    intro s1 s2 hs
    simp only [firstSeenAux]
    by_cases h1 : a ∈ s1
    · rw [if_pos h1, if_pos ((hs a).1 h1)]
      exact ih hs
    · rw [if_neg h1, if_neg (fun h2 => h1 ((hs a).2 h2))]
      exact congrArg (a :: ·) (ih (fun b => by simp [hs b]))

theorem runFrom_userKeys {ls : List String} {st st2 : ETLState}
    (h : runFrom st ls = .ok st2) :
    st2.dim_users.map Prod.fst =
      st.dim_users.map Prod.fst ++
        firstSeenAux (st.dim_users.map Prod.fst) (idsU ls) := by
  induction ls generalizing st with
  | nil =>
    simp only [runFrom, Except.ok.injEq] at h
    rw [← h]
    simp [idsU, firstSeenAux]
  | cons l ls ih =>
    simp only [runFrom] at h
    rcases hpl : processLine st l with e | st1
    · rw [hpl] at h; cases h
    rw [hpl] at h
    have hk := ih h
    rcases processLine_ok hpl with ⟨hb, rfl⟩ | ⟨hb, p, hv, hu, hc, ht, hfacts⟩
    · rw [hk]
      simp [idsU, List.filterMap_cons, isBlank, hb]
    · have hkeys := dimInsert_keys hu
      have hids : idsU (l :: ls) = p.uid :: idsU ls := by
        simp [idsU, List.filterMap_cons, isBlank, hb, hv]
      rw [hk, hkeys, hids]
      by_cases hp : (alistLookup st.dim_users p.uid).isSome = true
      · have hmem : p.uid ∈ st.dim_users.map Prod.fst :=
          (alistLookup_isSome_iff _ _).1 hp
        rw [if_pos hp]
        simp only [firstSeenAux, if_pos hmem]
      · have hmem : p.uid ∉ st.dim_users.map Prod.fst := fun hm =>
          hp ((alistLookup_isSome_iff _ _).2 hm)
        rw [if_neg hp]
        simp only [firstSeenAux, if_neg hmem]
        have hcg : firstSeenAux (st.dim_users.map Prod.fst ++ [p.uid]) (idsU ls) =
            firstSeenAux (p.uid :: st.dim_users.map Prod.fst) (idsU ls) :=
          firstSeenAux_congr _ (fun a => by
            simp only [List.mem_append, List.mem_singleton, List.mem_cons]
            tauto)
        rw [hcg]
        simp




theorem runFrom_courseKeys {ls : List String} {st st2 : ETLState}
    (h : runFrom st ls = .ok st2) :
    st2.dim_courses.map Prod.fst =
      st.dim_courses.map Prod.fst ++
        firstSeenAux (st.dim_courses.map Prod.fst) (idsC ls) := by
  induction ls generalizing st with
  | nil =>
    simp only [runFrom, Except.ok.injEq] at h
    rw [← h]
    simp [idsC, firstSeenAux]
  | cons l ls ih =>
    simp only [runFrom] at h
    rcases hpl : processLine st l with e | st1
    · rw [hpl] at h; cases h
    rw [hpl] at h
    have hk := ih h
    rcases processLine_ok hpl with ⟨hb, rfl⟩ | ⟨hb, p, hv, hu, hc, ht, hfacts⟩
    · rw [hk]
      simp [idsC, List.filterMap_cons, isBlank, hb]
    · have hkeys := dimInsert_keys hc
      have hids : idsC (l :: ls) = p.cid :: idsC ls := by
        simp [idsC, List.filterMap_cons, isBlank, hb, hv]
      rw [hk, hkeys, hids]
      by_cases hp : (alistLookup st.dim_courses p.cid).isSome = true
      · have hmem : p.cid ∈ st.dim_courses.map Prod.fst :=
          (alistLookup_isSome_iff _ _).1 hp
        rw [if_pos hp]
        simp only [firstSeenAux, if_pos hmem]
      · have hmem : p.cid ∉ st.dim_courses.map Prod.fst := fun hm =>
          hp ((alistLookup_isSome_iff _ _).2 hm)
        rw [if_neg hp]
        simp only [firstSeenAux, if_neg hmem]
        have hcg : firstSeenAux (st.dim_courses.map Prod.fst ++ [p.cid]) (idsC ls) =
            firstSeenAux (p.cid :: st.dim_courses.map Prod.fst) (idsC ls) :=
          firstSeenAux_congr _ (fun a => by
            simp only [List.mem_append, List.mem_singleton, List.mem_cons]
            tauto)
        rw [hcg]
        simp

theorem runFrom_timeKeys {ls : List String} {st st2 : ETLState}
    (h : runFrom st ls = .ok st2) :
    st2.dim_times.map Prod.fst =
      st.dim_times.map Prod.fst ++
        firstSeenAux (st.dim_times.map Prod.fst) (idsT ls) := by
  induction ls generalizing st with
  | nil =>
    simp only [runFrom, Except.ok.injEq] at h
    rw [← h]
    simp [idsT, firstSeenAux]
  | cons l ls ih =>
    simp only [runFrom] at h
    rcases hpl : processLine st l with e | st1
    · rw [hpl] at h; cases h
    rw [hpl] at h
    have hk := ih h
    rcases processLine_ok hpl with ⟨hb, rfl⟩ | ⟨hb, p, hv, hu, hc, ht, hfacts⟩
    · rw [hk]
      simp [idsT, List.filterMap_cons, isBlank, hb]
    · have hkeys := dimInsert_keys ht
      have hids : idsT (l :: ls) = isoT p.dt :: idsT ls := by
        simp [idsT, List.filterMap_cons, isBlank, hb, hv]
      rw [hk, hkeys, hids]
      by_cases hp : (alistLookup st.dim_times (isoT p.dt)).isSome = true
      · have hmem : isoT p.dt ∈ st.dim_times.map Prod.fst :=
          (alistLookup_isSome_iff _ _).1 hp
        rw [if_pos hp]
        simp only [firstSeenAux, if_pos hmem]
      · have hmem : isoT p.dt ∉ st.dim_times.map Prod.fst := fun hm =>
          hp ((alistLookup_isSome_iff _ _).2 hm)
        rw [if_neg hp]
        simp only [firstSeenAux, if_neg hmem]
        have hcg : firstSeenAux (st.dim_times.map Prod.fst ++ [isoT p.dt]) (idsT ls) =
            firstSeenAux (isoT p.dt :: st.dim_times.map Prod.fst) (idsT ls) :=
          firstSeenAux_congr _ (fun a => by
            simp only [List.mem_append, List.mem_singleton, List.mem_cons]
            tauto)
        rw [hcg]
        simp

theorem runFrom_userNodup {ls : List String} {st st2 : ETLState}
    (h : runFrom st ls = .ok st2) (hn : (st.dim_users.map Prod.fst).Nodup) :
    (st2.dim_users.map Prod.fst).Nodup := by
  induction ls generalizing st with
  | nil =>
    simp only [runFrom, Except.ok.injEq] at h
    rw [← h]; exact hn
  | cons l ls ih =>
    simp only [runFrom] at h
    rcases hpl : processLine st l with e | st1
    · rw [hpl] at h; cases h
    rw [hpl] at h
    rcases processLine_ok hpl with ⟨hb, rfl⟩ | ⟨hb, p, hv, hu, hc, ht, hfacts⟩
    · exact ih h hn
    · exact ih h (dimInsert_nodup hu hn)

theorem runFrom_courseNodup {ls : List String} {st st2 : ETLState}
    (h : runFrom st ls = .ok st2) (hn : (st.dim_courses.map Prod.fst).Nodup) :
    (st2.dim_courses.map Prod.fst).Nodup := by
  induction ls generalizing st with
  | nil =>
    simp only [runFrom, Except.ok.injEq] at h
    rw [← h]; exact hn
  | cons l ls ih =>
    simp only [runFrom] at h
    rcases hpl : processLine st l with e | st1
    · rw [hpl] at h; cases h
    rw [hpl] at h
    rcases processLine_ok hpl with ⟨hb, rfl⟩ | ⟨hb, p, hv, hu, hc, ht, hfacts⟩
    · exact ih h hn
    · exact ih h (dimInsert_nodup hc hn)

theorem runFrom_timeNodup {ls : List String} {st st2 : ETLState}
    (h : runFrom st ls = .ok st2) (hn : (st.dim_times.map Prod.fst).Nodup) :
    (st2.dim_times.map Prod.fst).Nodup := by
  induction ls generalizing st with
  | nil =>
    simp only [runFrom, Except.ok.injEq] at h
    rw [← h]; exact hn
  | cons l ls ih =>
    simp only [runFrom] at h
    rcases hpl : processLine st l with e | st1
    · rw [hpl] at h; cases h
    rw [hpl] at h
    rcases processLine_ok hpl with ⟨hb, rfl⟩ | ⟨hb, p, hv, hu, hc, ht, hfacts⟩
    · exact ih h hn
    · exact ih h (dimInsert_nodup ht hn)




theorem dimInsert_self_isSome {κ ρ : Type} [DecidableEq κ] {dims dims2 : List (κ × ρ)}
    {k : κ} {mk : Option ρ} (h : dimInsert dims k mk = .ok dims2) :
    (alistLookup dims2 k).isSome = true := by
  by_cases hp : (alistLookup dims k).isSome = true
  · rw [dimInsert_ok_present hp h]
    exact hp
  · have hn : alistLookup dims k = none := by
      rcases he : alistLookup dims k with _ | v
      · rfl
      · rw [he] at hp; simp at hp
    obtain ⟨r, hmk, hd⟩ := dimInsert_ok_absent hn h
    rw [hd, alistLookup_append, hn]
    simp [alistLookup]

theorem dimInsert_mono {κ ρ : Type} [DecidableEq κ] {dims dims2 : List (κ × ρ)}
    {k0 : κ} {mk : Option ρ} (h : dimInsert dims k0 mk = .ok dims2) {k : κ}
    (hs : (alistLookup dims k).isSome = true) : (alistLookup dims2 k).isSome = true := by
  rw [dimInsert_lookup h k]
  rcases he : alistLookup dims k with _ | v
  · rw [he] at hs; simp at hs
  · simp

theorem runFrom_userFirst {ls : List String} {st st2 : ETLState}
    (h : runFrom st ls = .ok st2) (uid : Int) :
    alistLookup st2.dim_users uid =
      match alistLookup st.dim_users uid with
      | some r => some r
      | none => firstUser uid ls := by
  induction ls generalizing st with
  | nil =>
    simp only [runFrom, Except.ok.injEq] at h
    rw [← h]
    rcases alistLookup st.dim_users uid with _ | r <;> simp [firstUser]
  | cons l ls ih =>
    simp only [runFrom] at h
    rcases hpl : processLine st l with e | st1
    · rw [hpl] at h; cases h
    rw [hpl] at h
    have hl2 := ih h
    rcases processLine_ok hpl with ⟨hb, rfl⟩ | ⟨hb, p, hv, hu, hc, ht, hfacts⟩
    · rw [hl2]
      have hfu : firstUser uid (l :: ls) = firstUser uid ls := by
        simp [firstUser, isBlank, hb]
      rw [hfu]
    · have hfu : firstUser uid (l :: ls) =
          if p.uid = uid then mkUserRec uid p.userD else firstUser uid ls := by
        simp [firstUser, isBlank, hb, hv]
      have hil := dimInsert_lookup hu uid
      rw [hl2, hil, hfu]
      rcases hsu : alistLookup st.dim_users uid with _ | r
      · by_cases hk : uid = p.uid
        · subst hk
          obtain ⟨r, hmk2, _⟩ := dimInsert_ok_absent hsu hu
          simp [hmk2]
        · have hk2 : ¬ (p.uid = uid) := fun e => hk e.symm
          simp [hk, hk2]
      · simp




theorem runFrom_courseFirst {ls : List String} {st st2 : ETLState}
    (h : runFrom st ls = .ok st2) (cid : Str) :
    alistLookup st2.dim_courses cid =
      match alistLookup st.dim_courses cid with
      | some r => some r
      | none => firstCourse cid ls := by
  induction ls generalizing st with
  | nil =>
    simp only [runFrom, Except.ok.injEq] at h
    rw [← h]
    rcases alistLookup st.dim_courses cid with _ | r <;> simp [firstCourse]
  | cons l ls ih =>
    simp only [runFrom] at h
    rcases hpl : processLine st l with e | st1
    · rw [hpl] at h; cases h
    rw [hpl] at h
    have hl2 := ih h
    rcases processLine_ok hpl with ⟨hb, rfl⟩ | ⟨hb, p, hv, hu, hc, ht, hfacts⟩
    · rw [hl2]
      have hfc : firstCourse cid (l :: ls) = firstCourse cid ls := by
        simp [firstCourse, isBlank, hb]
      rw [hfc]
    · have hfc : firstCourse cid (l :: ls) =
          if p.cid = cid then mkCourseRec cid p.courseD else firstCourse cid ls := by
        simp [firstCourse, isBlank, hb, hv]
      have hil := dimInsert_lookup hc cid
      rw [hl2, hil, hfc]
      rcases hsc : alistLookup st.dim_courses cid with _ | r
      · by_cases hk : cid = p.cid
        · subst hk
          obtain ⟨r, hmk2, _⟩ := dimInsert_ok_absent hsc hc
          simp [hmk2]
        · have hk2 : ¬ (p.cid = cid) := fun e => hk e.symm
          simp [hk, hk2]
      · simp

/-- Referential integrity of a state: every fact row references an
existing user-dimension key and course-dimension key. -/
def RefInt (st : ETLState) : Prop :=
  ∀ f ∈ st.facts, (alistLookup st.dim_users f.user_id).isSome = true ∧
    (alistLookup st.dim_courses f.course_id).isSome = true

theorem runFrom_refint {ls : List String} {st st2 : ETLState}
    (h : runFrom st ls = .ok st2) (hi : RefInt st) : RefInt st2 := by
  induction ls generalizing st with
  | nil =>
    simp only [runFrom, Except.ok.injEq] at h
    rw [← h]
    exact hi
  | cons l ls ih =>
    simp only [runFrom] at h
    rcases hpl : processLine st l with e | st1
    · rw [hpl] at h; cases h
    rw [hpl] at h
    rcases processLine_ok hpl with ⟨hb, rfl⟩ | ⟨hb, p, hv, hu, hc, ht, hfacts⟩
    · exact ih h hi
    · refine ih h ?_
      intro f hf
      rw [hfacts, List.mem_append, List.mem_singleton] at hf
      rcases hf with hold | hnew
      · obtain ⟨h1, h2⟩ := hi f hold
        exact ⟨dimInsert_mono hu h1, dimInsert_mono hc h2⟩
      · subst hnew
        constructor
        · exact dimInsert_self_isSome hu
        · exact dimInsert_self_isSome hc




/-! ### Claims -/

/-- C10: for every key=value block in which the same key occurs more
than once, with each sub-field containing exactly one equals sign,
parsing does not fail and the mapping keeps the value of the last
occurrence of each key. -/
theorem claim_C10_duplicate_keys_last_wins (s : Str)
    (h : ∀ f ∈ splitOnChar ';' s, (splitOnChar '=' f).length = 2) :
    parseBlock s = .ok ((pairsOf s).foldl dictInsert []) ∧
    ∀ k, dictLookup ((pairsOf s).foldl dictInsert []) k = lookupLast (pairsOf s) k := by
  refine ⟨parseBlock_ok s h, ?_⟩
  intro k
  rw [dictLookup_foldl]
  cases lookupLast (pairsOf s) k <;> simp [dictLookup]

/-- Witness for C10 at a block with a duplicated key: the block parses
and the key maps to the value of its last occurrence. -/
theorem witness_C10 :
    parseBlock ("a=1;b=2;a=3".data) = .ok ((pairsOf ("a=1;b=2;a=3".data)).foldl dictInsert []) ∧
    dictLookup ((pairsOf ("a=1;b=2;a=3".data)).foldl dictInsert []) ("a".data) =
      lookupLast (pairsOf ("a=1;b=2;a=3".data)) ("a".data) ∧
    lookupLast (pairsOf ("a=1;b=2;a=3".data)) ("a".data) = some ("3".data) :=
  ⟨(claim_C10_duplicate_keys_last_wins ("a=1;b=2;a=3".data) (by decide)).1,
   (claim_C10_duplicate_keys_last_wins ("a=1;b=2;a=3".data) (by decide)).2 ("a".data),
   by decide⟩

/-- C5 counterexample: the timestamp parser accepts a string whose
month is written with a single digit, which does not match the strict
zero-padded pattern, so parse success does not imply the strict format. -/
theorem counterexample_C5 :
    strptimeZ ("2024-1-02T03:04:05Z".data) = some ⟨2024, 1, 2, 3, 4, 5⟩ ∧
    strictFormatZ ("2024-1-02T03:04:05Z".data) = false := by
  decide

/-- C5 (amended): parsing of the first field succeeds on every strictly
formatted timestamp denoting a valid calendar date-time, recovering its
components, and every such strict rendering matches the strict pattern;
however acceptance is not limited to the strict format (see the
counterexample), and whenever the parser rejects a field the stage
fails with the timestamp error. -/
theorem claim_C5_timestamp_format (y m d h mi s : Nat) (hy1 : 1 ≤ y) (hy2 : y ≤ 9999)
    (hm1 : 1 ≤ m) (hm2 : m ≤ 12) (hd1 : 1 ≤ d) (hd2 : d ≤ daysInMonth y m)
    (hh : h ≤ 23) (hmi : mi ≤ 59) (hs : s ≤ 59) :
    (strptimeZ (renderStrictZ y m d h mi s) = some ⟨y, m, d, h, mi, s⟩ ∧
     strictFormatZ (renderStrictZ y m d h mi s) = true) ∧
    (∀ tsS : Str, strptimeZ tsS = none → getTs tsS = .error .invalidTimestamp) := by
  refine ⟨⟨strict_parses y m d h mi s hy1 hy2 hm1 hm2 hd1 hd2 hh hmi hs,
    render_strict_fmt y m d h mi s⟩, ?_⟩
  intro tsS hn
  simp [getTs, hn]

/-- Witness for C5 at a concrete strict timestamp. -/
theorem witness_C5 :
    strptimeZ (renderStrictZ 2026 1 2 3 4 5) = some ⟨2026, 1, 2, 3, 4, 5⟩ ∧
    strictFormatZ (renderStrictZ 2026 1 2 3 4 5) = true :=
  (claim_C5_timestamp_format 2026 1 2 3 4 5 (by decide) (by decide) (by decide)
    (by decide) (by decide) (by decide) (by decide) (by decide) (by decide)).1

/-- C4 counterexample: a run whose second line has a course block with
no category key succeeds, because the course id of that line is already
in the course dimension and the category subscript is never reached;
so a missing required key does not always abort the run. -/
theorem counterexample_C4 :
    (runTransform
      ["2026-01-02T03:04:05Z | EVT | user_id=1;user_name=Alice;user_city=NYC | course_id=C1;course_name=Algo;category=CS | price=100;promo_code=NULL",
       "2026-01-02T03:04:06Z | EVT | user_id=1 | course_id=C1 | price=5;promo_code=NULL"]).toOption.isSome = true ∧
    (parseBlock ("course_id=C1".data)).toOption.map
      (fun dct => dictLookup dct ("category".data)) = some none := by
  decide

/-- C4 (amended): whenever processing of a line fails, the entire run
aborts with that error and produces no output state, regardless of any
lines that follow; a missing required key aborts only when the key is
actually subscripted, which for dimension attributes happens only at
the first occurrence of the dimension key. -/
theorem claim_C4_abort_no_output (pre : List String) (l : String) (post : List String)
    (st : ETLState) (e : Err) (h1 : runFrom initState pre = .ok st)
    (h2 : processLine st l = .error e) :
    runTransform (pre ++ l :: post) = .error e := by
  unfold runTransform
  rw [runFrom_append, h1]
  simp only [runFrom, h2]

/-- Witness for C4: a malformed line aborts the whole run. -/
theorem witness_C4 : runTransform [("garbage")] = .error .malformedLine :=
  claim_C4_abort_no_output [] ("garbage") [] initState .malformedLine (by rfl) (by rfl)

/-- C8: for every non-blank line, a pipe split that does not yield
exactly five fields makes the line processing fail with the malformed
line error, and a five-way split hands the five fields onward with
surrounding whitespace trimmed from each. -/
theorem claim_C8_five_fields (st : ETLState) (raw : String)
    (hnb : pyStrip raw.data ≠ []) :
    ((splitPipe (pyStrip raw.data)).length ≠ 5 →
      processLine st raw = .error .malformedLine) ∧
    (∀ a b c d e, splitPipe (pyStrip raw.data) = [a, b, c, d, e] →
      split5 (pyStrip raw.data) = .ok (pyStrip a, pyStrip b, pyStrip c, pyStrip d, pyStrip e)) := by
  constructor
  · intro hlen
    have h5 : split5 (pyStrip raw.data) = .error .malformedLine := by
      unfold split5
      rcases hsp : splitPipe (pyStrip raw.data) with
        _ | ⟨a, _ | ⟨b, _ | ⟨c, _ | ⟨d, _ | ⟨e, _ | ⟨f, t⟩⟩⟩⟩⟩⟩
      · rfl
      · rfl
      · rfl
      · rfl
      · rfl
      · exact absurd (by rw [hsp]; rfl) hlen
      · rfl
    simp [processLine, hnb, h5]
  · intro a b c d e hsp
    simp [split5, hsp]

/-- Witness for C8: a three-field line fails with the malformed line
error. -/
theorem witness_C8 : processLine initState ("a | b | c") = .error .malformedLine :=
  (claim_C8_five_fields initState ("a | b | c") (by decide)).1 (by decide)




theorem mem_factsOf {lines : List String} {f : FactRec} (hf : f ∈ factsOf lines) :
    ∃ p : LineParts, f = mkFact p := by
  simp only [factsOf, List.mem_filterMap] at hf
  obtain ⟨l, _, hif⟩ := hf
  split at hif
  · cases hif
  · rcases hmap : lineView l with _ | p
    · rw [hmap] at hif; cases hif
    · rw [hmap] at hif
      simp only [Option.map, Option.some.injEq] at hif
      exact ⟨p, hif.symm⟩

theorem mkFact_promo (p : LineParts) :
    (mkFact p).promo_code ≠ some ("NULL".data) ∧
    ((mkFact p).promo_code = none → (mkFact p).final_price = some (mkFact p).price) ∧
    ((mkFact p).promo_code ≠ none → (mkFact p).final_price = none) := by
  by_cases hn : p.promoRaw = "NULL".data
  · simp [mkFact, mkPromo, hn]
  · simp [mkFact, mkPromo, hn]

/-- C1 counterexample: a price block whose promo code value is the
empty string yields a fact whose promo code is the present empty
string, not an absent value, and whose final price is absent rather
than equal to the price; so a semantically empty promo value is not
normalized away. -/
theorem counterexample_C1 :
    (runTransform
      ["2026-01-02T03:04:05Z | EVT | user_id=1;user_name=Alice;user_city=NYC | course_id=C1;course_name=Algo;category=CS | price=100;promo_code="]).toOption.map
        (fun st => st.facts.map (fun f => (f.promo_code, f.final_price))) =
      some [(some [], none)] ∧
    (some ([] : Str) ≠ (none : Option Str)) ∧ ((none : Option Int) ≠ some (100 : Int)) := by
  decide

/-- C1 (amended): in every successful run, no fact record carries the
literal NULL sentinel as its promo code; a fact with an absent promo
code has its final price equal to its price; and a fact with a present
promo code, including the empty string, has an absent final price.
Only the literal NULL input value is normalized to an absent promo. -/
theorem claim_C1_promo_handling (lines : List String) (st : ETLState)
    (h : runTransform lines = .ok st) :
    ∀ f ∈ st.facts, f.promo_code ≠ some ("NULL".data) ∧
      (f.promo_code = none → f.final_price = some f.price) ∧
      (f.promo_code ≠ none → f.final_price = none) := by
  intro f hf
  have hfacts := runFrom_facts h
  rw [hfacts] at hf
  simp only [initState, List.nil_append] at hf
  obtain ⟨p, rfl⟩ := mem_factsOf hf
  exact mkFact_promo p

/-- Witness for C1 at a one-line run with the NULL sentinel. -/
theorem witness_C1 :
    (⟨"2026-01-02 03:04:05".data, 1, "C1".data, 100, none, some 100⟩ : FactRec).promo_code
        ≠ some ("NULL".data) ∧
    ((⟨"2026-01-02 03:04:05".data, 1, "C1".data, 100, none, some 100⟩ : FactRec).promo_code = none →
      (⟨"2026-01-02 03:04:05".data, 1, "C1".data, 100, none, some 100⟩ : FactRec).final_price =
        some (⟨"2026-01-02 03:04:05".data, 1, "C1".data, 100, none, some 100⟩ : FactRec).price) ∧
    ((⟨"2026-01-02 03:04:05".data, 1, "C1".data, 100, none, some 100⟩ : FactRec).promo_code ≠ none →
      (⟨"2026-01-02 03:04:05".data, 1, "C1".data, 100, none, some 100⟩ : FactRec).final_price = none) :=
  claim_C1_promo_handling
    ["2026-01-02T03:04:05Z | EVT | user_id=1;user_name=Alice;user_city=NYC | course_id=C1;course_name=Algo;category=CS | price=100;promo_code=NULL"]
    _ (by rfl) _ (by decide)

/-- C2: in every successful run, each user-dimension entry holds the
user record built from the first non-blank line carrying that user id,
and likewise for course-dimension entries; later occurrences never
update an existing entry. -/
theorem claim_C2_first_occurrence_wins (lines : List String) (st : ETLState)
    (h : runTransform lines = .ok st) :
    (∀ uid : Int, alistLookup st.dim_users uid = firstUser uid lines) ∧
    (∀ cid : Str, alistLookup st.dim_courses cid = firstCourse cid lines) := by
  constructor
  · intro uid
    have hu := runFrom_userFirst h uid
    simpa [initState, alistLookup] using hu
  · intro cid
    have hc := runFrom_courseFirst h cid
    simpa [initState, alistLookup] using hc

/-- Witness for C2 at the two-line example from the spec: the user
dimension retains the first-seen name and city. -/
theorem witness_C2 :
    alistLookup (getOk (runTransform
      ["2026-01-02T03:04:05Z | EVT | user_id=1;user_name=Alice;user_city=NYC | course_id=C1;course_name=Algo;category=CS | price=100;promo_code=NULL",
       "2026-01-02T03:04:06Z | EVT | user_id=1;user_name=Alicia;user_city=LA | course_id=C1;course_name=Algo;category=CS | price=50;promo_code=NULL"])).dim_users 1 =
      firstUser 1
        ["2026-01-02T03:04:05Z | EVT | user_id=1;user_name=Alice;user_city=NYC | course_id=C1;course_name=Algo;category=CS | price=100;promo_code=NULL",
         "2026-01-02T03:04:06Z | EVT | user_id=1;user_name=Alicia;user_city=LA | course_id=C1;course_name=Algo;category=CS | price=50;promo_code=NULL"] ∧
    firstUser 1
        ["2026-01-02T03:04:05Z | EVT | user_id=1;user_name=Alice;user_city=NYC | course_id=C1;course_name=Algo;category=CS | price=100;promo_code=NULL",
         "2026-01-02T03:04:06Z | EVT | user_id=1;user_name=Alicia;user_city=LA | course_id=C1;course_name=Algo;category=CS | price=50;promo_code=NULL"] =
      some ⟨1, "Alice".data, "NYC".data⟩ :=
  ⟨(claim_C2_first_occurrence_wins _ _ (by rfl)).1 1, by decide⟩




/-- C3 counterexample: in the written dim_time table of a successful
run, the time_id cell is the space-separated rendering of the stored
datetime object, which differs from the ISO-8601 rendering with the T
separator of the same timestamp. -/
theorem counterexample_C3 :
    (outputTimeRows (getOk (runTransform
      ["2026-01-02T03:04:05Z | EVT | user_id=1;user_name=Alice;user_city=NYC | course_id=C1;course_name=Algo;category=CS | price=100;promo_code=NULL"]))).head? =
      some ["2026-01-02 03:04:05".data, "2026-01-02".data, "2026".data, "1".data,
        "2".data, "3".data] ∧
    "2026-01-02 03:04:05".data ≠ isoT ⟨2026, 1, 2, 3, 4, 5⟩ := by
  decide

/-- C3 (amended): in every successful run, each written dim_time row
renders its time_id cell as the space-separated second-precision form
of the stored datetime and its date cell in calendar-date-only form,
and every fact row carries a space-separated second-precision time_id;
the dim_time time_id cell is not the T-separated ISO-8601 form. -/
theorem claim_C3_time_renderings (lines : List String) (st : ETLState)
    (h : runTransform lines = .ok st) :
    (∀ e ∈ st.dim_times,
      renderTimeRow e.2 = [isoSpace e.2.time_id, dateStr e.2.date, natStr e.2.year,
        natStr e.2.month, natStr e.2.day, natStr e.2.hour] ∧
      isSpaceFmt (isoSpace e.2.time_id) = true ∧
      isDateFmt (dateStr e.2.date) = true) ∧
    (∀ f ∈ st.facts, isSpaceFmt f.time_id = true) := by
  constructor
  · intro e _
    exact ⟨rfl, isoSpace_fmt e.2.time_id, dateStr_fmt e.2.date⟩
  · intro f hf
    have hfacts := runFrom_facts h
    rw [hfacts] at hf
    simp only [initState, List.nil_append] at hf
    obtain ⟨p, rfl⟩ := mem_factsOf hf
    exact isoSpace_fmt p.dt

/-- Witness for C3 at a one-line run. -/
theorem witness_C3 :
    isSpaceFmt (⟨"2026-01-02 03:04:05".data, 1, "C1".data, 100, none, some 100⟩ : FactRec).time_id = true :=
  (claim_C3_time_renderings
    ["2026-01-02T03:04:05Z | EVT | user_id=1;user_name=Alice;user_city=NYC | course_id=C1;course_name=Algo;category=CS | price=100;promo_code=NULL"]
    _ (by rfl)).2 _ (by decide)

/-- C6: in every successful run the fact list is exactly the per-line
fact of each non-blank line in input order, its length is the number of
non-blank lines, and deleting the blank lines from the input leaves the
entire run result unchanged, so blank lines contribute to no dimension
or fact collection. -/
theorem claim_C6_one_fact_per_line (lines : List String) (st : ETLState)
    (h : runTransform lines = .ok st) :
    st.facts = factsOf lines ∧
    st.facts.length = (lines.filter (fun l => !(isBlank l))).length ∧
    runTransform lines = runTransform (lines.filter (fun l => !(isBlank l))) := by
  refine ⟨?_, ?_, ?_⟩
  · have hfacts := runFrom_facts h
    simpa [initState] using hfacts
  · have hlen := runFrom_factsLen h
    simpa [initState] using hlen
  · exact (runFrom_filter_blank initState lines).symm

/-- Witness for C6 at the three-line example of the spec (with one
whitespace-only line added): two distinct users, two distinct courses,
one repeated timestamp, three facts. -/
theorem witness_C6 :
    (getOk (runTransform
      ["2026-01-02T03:04:05Z | EVT | user_id=1;user_name=Alice;user_city=NYC | course_id=C1;course_name=Algo;category=CS | price=100;promo_code=NULL",
       "   ",
       "2026-01-02T03:04:05Z | EVT | user_id=2;user_name=Bob;user_city=LA | course_id=C2;course_name=Db;category=CS | price=80;promo_code=SAVE10",
       "2026-01-02T03:04:06Z | EVT | user_id=1;user_name=Alice;user_city=NYC | course_id=C2;course_name=Db;category=CS | price=80;promo_code=NULL"])).facts.length =
      (["2026-01-02T03:04:05Z | EVT | user_id=1;user_name=Alice;user_city=NYC | course_id=C1;course_name=Algo;category=CS | price=100;promo_code=NULL",
        "   ",
        "2026-01-02T03:04:05Z | EVT | user_id=2;user_name=Bob;user_city=LA | course_id=C2;course_name=Db;category=CS | price=80;promo_code=SAVE10",
        "2026-01-02T03:04:06Z | EVT | user_id=1;user_name=Alice;user_city=NYC | course_id=C2;course_name=Db;category=CS | price=80;promo_code=NULL"].filter
        (fun l => !(isBlank l))).length ∧
    (getOk (runTransform
      ["2026-01-02T03:04:05Z | EVT | user_id=1;user_name=Alice;user_city=NYC | course_id=C1;course_name=Algo;category=CS | price=100;promo_code=NULL",
       "   ",
       "2026-01-02T03:04:05Z | EVT | user_id=2;user_name=Bob;user_city=LA | course_id=C2;course_name=Db;category=CS | price=80;promo_code=SAVE10",
       "2026-01-02T03:04:06Z | EVT | user_id=1;user_name=Alice;user_city=NYC | course_id=C2;course_name=Db;category=CS | price=80;promo_code=NULL"])).facts.length = 3 ∧
    (getOk (runTransform
      ["2026-01-02T03:04:05Z | EVT | user_id=1;user_name=Alice;user_city=NYC | course_id=C1;course_name=Algo;category=CS | price=100;promo_code=NULL",
       "   ",
       "2026-01-02T03:04:05Z | EVT | user_id=2;user_name=Bob;user_city=LA | course_id=C2;course_name=Db;category=CS | price=80;promo_code=SAVE10",
       "2026-01-02T03:04:06Z | EVT | user_id=1;user_name=Alice;user_city=NYC | course_id=C2;course_name=Db;category=CS | price=80;promo_code=NULL"])).dim_users.length = 2 ∧
    (getOk (runTransform
      ["2026-01-02T03:04:05Z | EVT | user_id=1;user_name=Alice;user_city=NYC | course_id=C1;course_name=Algo;category=CS | price=100;promo_code=NULL",
       "   ",
       "2026-01-02T03:04:05Z | EVT | user_id=2;user_name=Bob;user_city=LA | course_id=C2;course_name=Db;category=CS | price=80;promo_code=SAVE10",
       "2026-01-02T03:04:06Z | EVT | user_id=1;user_name=Alice;user_city=NYC | course_id=C2;course_name=Db;category=CS | price=80;promo_code=NULL"])).dim_courses.length = 2 :=
  ⟨(claim_C6_one_fact_per_line _ _ (by rfl)).2.1, by decide, by decide, by decide⟩

/-- C7: in every successful run, every fact references a user id
present in the user dimension and a course id present in the course
dimension. -/
theorem claim_C7_referential_integrity (lines : List String) (st : ETLState)
    (h : runTransform lines = .ok st) :
    ∀ f ∈ st.facts, (alistLookup st.dim_users f.user_id).isSome = true ∧
      (alistLookup st.dim_courses f.course_id).isSome = true :=
  runFrom_refint h (fun f hf => absurd hf (by simp [initState]))

/-- Witness for C7 at a one-line run. -/
theorem witness_C7 :
    (alistLookup (getOk (runTransform
      ["2026-01-02T03:04:05Z | EVT | user_id=1;user_name=Alice;user_city=NYC | course_id=C1;course_name=Algo;category=CS | price=100;promo_code=NULL"])).dim_users
      (⟨"2026-01-02 03:04:05".data, 1, "C1".data, 100, none, some 100⟩ : FactRec).user_id).isSome = true ∧
    (alistLookup (getOk (runTransform
      ["2026-01-02T03:04:05Z | EVT | user_id=1;user_name=Alice;user_city=NYC | course_id=C1;course_name=Algo;category=CS | price=100;promo_code=NULL"])).dim_courses
      (⟨"2026-01-02 03:04:05".data, 1, "C1".data, 100, none, some 100⟩ : FactRec).course_id).isSome = true :=
  claim_C7_referential_integrity
    ["2026-01-02T03:04:05Z | EVT | user_id=1;user_name=Alice;user_city=NYC | course_id=C1;course_name=Algo;category=CS | price=100;promo_code=NULL"]
    _ (by rfl) _ (by decide)

/-- C9: in every successful run, the key sequences of the three
dimension dictionaries are the first occurrences of the respective ids
of the non-blank lines, in first-seen order and without duplicates, and
the fact list is in append order, one fact per non-blank line. -/
theorem claim_C9_unique_keys_order (lines : List String) (st : ETLState)
    (h : runTransform lines = .ok st) :
    st.dim_users.map Prod.fst = firstSeen (idsU lines) ∧
    st.dim_courses.map Prod.fst = firstSeen (idsC lines) ∧
    st.dim_times.map Prod.fst = firstSeen (idsT lines) ∧
    (st.dim_users.map Prod.fst).Nodup ∧
    (st.dim_courses.map Prod.fst).Nodup ∧
    (st.dim_times.map Prod.fst).Nodup ∧
    st.facts = factsOf lines := by
  refine ⟨?_, ?_, ?_, ?_, ?_, ?_, ?_⟩
  · have hk := runFrom_userKeys h
    simpa [initState, firstSeen] using hk
  · have hk := runFrom_courseKeys h
    simpa [initState, firstSeen] using hk
  · have hk := runFrom_timeKeys h
    simpa [initState, firstSeen] using hk
  · exact runFrom_userNodup h (by simp [initState])
  · exact runFrom_courseNodup h (by simp [initState])
  · exact runFrom_timeNodup h (by simp [initState])
  · have hfacts := runFrom_facts h
    simpa [initState] using hfacts

/-- Witness for C9 at a two-line run with a repeated user id. -/
theorem witness_C9 :
    (getOk (runTransform
      ["2026-01-02T03:04:05Z | EVT | user_id=1;user_name=Alice;user_city=NYC | course_id=C1;course_name=Algo;category=CS | price=100;promo_code=NULL",
       "2026-01-02T03:04:06Z | EVT | user_id=1;user_name=Alice;user_city=NYC | course_id=C2;course_name=Db;category=CS | price=80;promo_code=NULL"])).dim_users.map Prod.fst =
      firstSeen (idsU
        ["2026-01-02T03:04:05Z | EVT | user_id=1;user_name=Alice;user_city=NYC | course_id=C1;course_name=Algo;category=CS | price=100;promo_code=NULL",
         "2026-01-02T03:04:06Z | EVT | user_id=1;user_name=Alice;user_city=NYC | course_id=C2;course_name=Db;category=CS | price=80;promo_code=NULL"]) ∧
    firstSeen (idsU
        ["2026-01-02T03:04:05Z | EVT | user_id=1;user_name=Alice;user_city=NYC | course_id=C1;course_name=Algo;category=CS | price=100;promo_code=NULL",
         "2026-01-02T03:04:06Z | EVT | user_id=1;user_name=Alice;user_city=NYC | course_id=C2;course_name=Db;category=CS | price=80;promo_code=NULL"]) = [1] :=
  ⟨(claim_C9_unique_keys_order _ _ (by rfl)).1, by decide⟩


end ETL
